import Mathlib

/-!
Verification development for the S3 vector-similarity client
(src/examples/s3_vectors_client.py).

The Python client stores each vector as a JSON object under the key
"vectors/<id>.json" in a blob store, and performs brute-force top-k
cosine-similarity search by listing keys under a prefix, fetching and
parsing each object, scoring it against the query, sorting descending
by score (Python's stable sort with reverse=True) and slicing the
first k entries.

Modelling choices:
* Floating-point numbers are idealised as exact rationals; a cosine
  value dot/(‖a‖·‖b‖) is then of the form d / √s with d s : ℚ, 0 < s,
  which we represent exactly and computably by its sign together with
  its square (`Score`), with `Score.toReal` giving the denoted real.
* The blob store is a state: an association list of key/object pairs
  plus fault flags saying which put/get requests fail and whether
  listing fails (network faults, parse failures are part of the
  stored object).
* Python exceptions that the source catches are modelled by the
  corresponding fallback value; the uncaught numpy shape error raised
  by np.dot on mismatched 1-d arrays is modelled as a
  dimension-mismatch error value.
-/

/-- JSON scalar values; the metadata mapping of a record is an open
string-keyed mapping whose values the client never inspects, so scalar
payloads model it faithfully. -/
inductive JVal where
  | jstr (s : String)
  | jnum (q : ℚ)
  | jbool (b : Bool)
  | jnull
deriving DecidableEq

/-- Metadata mapping attached to a stored vector. -/
abbrev Metadata := List (String × JVal)

/-- A stored vector record: the JSON document
{ "id": ..., "vector": ..., "metadata": ... } written by insert_vector. -/
structure VecRecord where
  id : String
  vector : List ℚ
  metadata : Metadata
deriving DecidableEq

/-- The body of one stored object as seen through get_object plus
json.loads: either it parses to a well-formed record document, or any
attempt to parse or field-access it raises (malformed). -/
inductive ObjBody where
  | record (r : VecRecord)
  | malformed
deriving DecidableEq

/-- State of the S3 bucket together with fault flags for the external
adapter: failPut/failGet name the keys whose put_object/get_object
calls raise, listFails says list_objects_v2 raises. -/
structure S3State where
  objects : List (String × ObjBody)
  failPut : String → Bool
  failGet : String → Bool
  listFails : Bool

/-- Python str.startswith / the S3 Prefix filter, on character lists. -/
def strStartsWith (pfx s : String) : Bool :=
  pfx.data.isPrefixOf s.data

/-- Python str.endswith, on character lists. -/
def strEndsWith (suf s : String) : Bool :=
  suf.data.isSuffixOf s.data

/-- Python s.replace(pat, ''): delete every (leftmost, non-overlapping)
occurrence of pat from s, scanning left to right. -/
def removeAll (pat : List Char) : List Char → List Char
  | [] => []
  | c :: rest =>
    if hpat : pat = [] then c :: rest
    else if pat.isPrefixOf (c :: rest) then removeAll pat ((c :: rest).drop pat.length)
    else c :: removeAll pat rest
termination_by s => s.length
decreasing_by
  · have hl : 0 < pat.length := List.length_pos.mpr hpat
    simp only [List.length_drop, List.length_cons]
    omega
  · simp only [List.length_cons]
    omega

/-- Occurrence test: pat appears as a contiguous sublist of s. -/
def occursIn (pat s : List Char) : Bool :=
  s.tails.any (fun t => pat.isPrefixOf t)

/-- Dot product of two equal-length vectors (np.dot on 1-d arrays). -/
def dot (a b : List ℚ) : ℚ :=
  (List.zipWith (fun x y => x * y) a b).sum

/-- Sum of squares of the entries: the square of the Euclidean norm
computed by np.linalg.norm. -/
def sumSq (v : List ℚ) : ℚ :=
  dot v v

/-- Euclidean norm of a vector, as the real number np.linalg.norm
computes. -/
noncomputable def euclidNorm (v : List ℚ) : ℝ :=
  Real.sqrt ((sumSq v : ℚ) : ℝ)

theorem sumSq_nonneg (v : List ℚ) : 0 ≤ sumSq v := by
  induction v with
  | nil => simp [sumSq, dot]
  | cons x xs ih =>
    have hx : 0 ≤ x * x := mul_self_nonneg x
    simp only [sumSq, dot, List.zipWith_cons_cons, List.sum_cons] at *
    exact add_nonneg hx ih

theorem euclidNorm_eq_zero_iff (v : List ℚ) : euclidNorm v = 0 ↔ sumSq v = 0 := by
  have h0 : (0 : ℝ) ≤ ((sumSq v : ℚ) : ℝ) := by
    exact_mod_cast sumSq_nonneg v
  constructor
  · intro h
    have := (Real.sqrt_eq_zero h0).mp h
    exact_mod_cast this
  · intro h
    simp [euclidNorm, h]

/-- Exact representation of one similarity value d / √s (d s : ℚ,
0 < s, the value a float cosine denotes in exact arithmetic): its sign
and its square.  The invariants make the representation canonical, so
that equality and order of `Score`s are decidable and agree with
equality and order of the denoted reals. -/
structure Score where
  sgn : Int
  sq : ℚ
  sgn_mem : sgn = 0 ∨ sgn = 1 ∨ sgn = -1
  sq_nonneg : 0 ≤ sq
  sgn_zero_iff : sgn = 0 ↔ sq = 0

theorem Score.ext_sgn_sq : ∀ {s t : Score}, s.sgn = t.sgn → s.sq = t.sq → s = t := by
  intro s t h1 h2
  cases s
  cases t
  simp only at h1 h2
  subst h1
  subst h2
  rfl

instance : DecidableEq Score := fun s t =>
  decidable_of_iff (s.sgn = t.sgn ∧ s.sq = t.sq)
    ⟨fun h => Score.ext_sgn_sq h.1 h.2, fun h => by subst h; exact ⟨rfl, rfl⟩⟩

/-- The real number a `Score` denotes. -/
noncomputable def Score.toReal (s : Score) : ℝ :=
  (s.sgn : ℝ) * Real.sqrt ((s.sq : ℚ) : ℝ)

/-- The score of value exactly 0.0 (the zero-norm fallback of
cosine_similarity). -/
def zeroScore : Score :=
  ⟨0, 0, Or.inl rfl, le_refl 0, Iff.intro (fun _ => rfl) (fun _ => rfl)⟩

theorem zeroScore_toReal : zeroScore.toReal = 0 := by
  simp [Score.toReal, zeroScore]

/-- Build the score d / √s for a positive divisor-square s: the value
the code computes as dot_product / (norm1 * norm2). -/
def mkScore (d s : ℚ) (hs : 0 < s) : Score :=
  if hd : 0 < d then
    ⟨1, d ^ 2 / s, Or.inr (Or.inl rfl), by positivity, by
      constructor
      · intro h
        exact absurd h (by decide)
      · intro h
        have : d ^ 2 / s ≠ 0 := div_ne_zero (pow_ne_zero 2 (ne_of_gt hd)) (ne_of_gt hs)
        exact absurd h this⟩
  else if hd2 : d < 0 then
    ⟨-1, d ^ 2 / s, Or.inr (Or.inr rfl), by positivity, by
      constructor
      · intro h
        exact absurd h (by decide)
      · intro h
        have : d ^ 2 / s ≠ 0 := div_ne_zero (pow_ne_zero 2 (ne_of_lt hd2)) (ne_of_gt hs)
        exact absurd h this⟩
  else
    ⟨0, 0, Or.inl rfl, le_refl 0, Iff.intro (fun _ => rfl) (fun _ => rfl)⟩

/-- Decidable order on scores, matching the order of the denoted real
values (proved in Score.le_iff_toReal). -/
def Score.le (s t : Score) : Prop :=
  s.sgn < t.sgn ∨
    (s.sgn = t.sgn ∧ ((0 ≤ s.sgn ∧ s.sq ≤ t.sq) ∨ (s.sgn < 0 ∧ t.sq ≤ s.sq)))

instance : DecidableRel Score.le := fun s t =>
  inferInstanceAs (Decidable (_ ∨ _))

theorem Score.sqrt_pos_of_sgn_ne {u : Score} (hu : u.sgn ≠ 0) :
    0 < Real.sqrt ((u.sq : ℚ) : ℝ) := by
  have h1 : u.sq ≠ 0 := fun h => hu (u.sgn_zero_iff.mpr h)
  have h2 : 0 < u.sq := lt_of_le_of_ne u.sq_nonneg (Ne.symm h1)
  have h3 : (0 : ℝ) < ((u.sq : ℚ) : ℝ) := by exact_mod_cast h2
  exact Real.sqrt_pos.mpr h3

/-- The decidable comparison on score representations coincides with
the comparison of the real score values the floats denote. -/
theorem Score.le_iff_toReal (s t : Score) : Score.le s t ↔ s.toReal ≤ t.toReal := by
  rcases s.sgn_mem with hs | hs | hs <;> rcases t.sgn_mem with ht | ht | ht
  · have hs0 : s.sq = 0 := s.sgn_zero_iff.mp hs
    have ht0 : t.sq = 0 := t.sgn_zero_iff.mp ht
    apply iff_of_true
    · exact Or.inr ⟨by rw [hs, ht], Or.inl ⟨by rw [hs], by rw [hs0, ht0]⟩⟩
    · simp [Score.toReal, hs, ht]
  · apply iff_of_true
    · exact Or.inl (by rw [hs, ht]; decide)
    · have := Real.sqrt_nonneg ((t.sq : ℚ) : ℝ)
      simp only [Score.toReal, hs, ht]
      push_cast
      nlinarith
  · have htpos := Score.sqrt_pos_of_sgn_ne (u := t) (by rw [ht]; decide)
    apply iff_of_false
    · intro h
      rcases h with h | ⟨he, _⟩
      · rw [hs, ht] at h
        exact absurd h (by decide)
      · rw [hs, ht] at he
        exact absurd he (by decide)
    · intro h
      simp only [Score.toReal, hs, ht] at h
      push_cast at h
      nlinarith
  · have hspos := Score.sqrt_pos_of_sgn_ne (u := s) (by rw [hs]; decide)
    apply iff_of_false
    · intro h
      rcases h with h | ⟨he, _⟩
      · rw [hs, ht] at h
        exact absurd h (by decide)
      · rw [hs, ht] at he
        exact absurd he (by decide)
    · intro h
      simp only [Score.toReal, hs, ht] at h
      push_cast at h
      nlinarith
  · have hreal : s.toReal ≤ t.toReal ↔ s.sq ≤ t.sq := by
      have htnn : (0 : ℝ) ≤ ((t.sq : ℚ) : ℝ) := by exact_mod_cast t.sq_nonneg
      simp only [Score.toReal, hs, ht]
      push_cast
      rw [one_mul, one_mul, Real.sqrt_le_sqrt_iff htnn]
      exact Rat.cast_le
    rw [hreal]
    constructor
    · intro h
      rcases h with h | ⟨_, h⟩
      · rw [hs, ht] at h
        exact absurd h (by decide)
      · rcases h with ⟨_, h⟩ | ⟨h0, _⟩
        · exact h
        · rw [hs] at h0
          exact absurd h0 (by decide)
    · intro h
      exact Or.inr ⟨by rw [hs, ht], Or.inl ⟨by rw [hs]; decide, h⟩⟩
  · have hspos := Score.sqrt_pos_of_sgn_ne (u := s) (by rw [hs]; decide)
    have htpos := Score.sqrt_pos_of_sgn_ne (u := t) (by rw [ht]; decide)
    apply iff_of_false
    · intro h
      rcases h with h | ⟨he, _⟩
      · rw [hs, ht] at h
        exact absurd h (by decide)
      · rw [hs, ht] at he
        exact absurd he (by decide)
    · intro h
      simp only [Score.toReal, hs, ht] at h
      push_cast at h
      nlinarith
  · apply iff_of_true
    · exact Or.inl (by rw [hs, ht]; decide)
    · have := Real.sqrt_nonneg ((s.sq : ℚ) : ℝ)
      simp only [Score.toReal, hs, ht]
      push_cast
      nlinarith
  · apply iff_of_true
    · exact Or.inl (by rw [hs, ht]; decide)
    · have h1 := Real.sqrt_nonneg ((s.sq : ℚ) : ℝ)
      have h2 := Real.sqrt_nonneg ((t.sq : ℚ) : ℝ)
      simp only [Score.toReal, hs, ht]
      push_cast
      nlinarith
  · have hreal : s.toReal ≤ t.toReal ↔ t.sq ≤ s.sq := by
      have hsnn : (0 : ℝ) ≤ ((s.sq : ℚ) : ℝ) := by exact_mod_cast s.sq_nonneg
      simp only [Score.toReal, hs, ht]
      push_cast
      rw [neg_one_mul, neg_one_mul, neg_le_neg_iff, Real.sqrt_le_sqrt_iff hsnn]
      exact Rat.cast_le
    rw [hreal]
    constructor
    · intro h
      rcases h with h | ⟨_, h⟩
      · rw [hs, ht] at h
        exact absurd h (by decide)
      · rcases h with ⟨h0, _⟩ | ⟨_, h⟩
        · rw [hs] at h0
          exact absurd h0 (by decide)
        · exact h
    · intro h
      exact Or.inr ⟨by rw [hs, ht], Or.inr ⟨by rw [hs]; decide, h⟩⟩

/-- Two score representations denoting the same real value are equal:
float-equality ties are exactly representation-equality ties. -/
theorem Score.toReal_inj {s t : Score} (h : s.toReal = t.toReal) : s = t := by
  have h1 := (Score.le_iff_toReal s t).mpr (le_of_eq h)
  have h2 := (Score.le_iff_toReal t s).mpr (le_of_eq h.symm)
  rcases h1 with h1 | ⟨he1, h1⟩
  · rcases h2 with h2 | ⟨he2, _⟩
    · omega
    · omega
  · rcases h2 with h2 | ⟨_, h2⟩
    · omega
    · apply Score.ext_sgn_sq he1
      rcases h1 with ⟨hg1, hle1⟩ | ⟨hg1, hle1⟩ <;> rcases h2 with ⟨hg2, hle2⟩ | ⟨hg2, hle2⟩
      · exact le_antisymm hle1 hle2
      · omega
      · omega
      · exact le_antisymm hle2 hle1

theorem Score.eq_iff_toReal (s t : Score) : s = t ↔ s.toReal = t.toReal :=
  ⟨fun h => by rw [h], Score.toReal_inj⟩

/-- Error of the scoring function: np.dot raises a shape error when
the two 1-d arrays have different lengths (the DimensionMismatch of
the spec's taxonomy); cosine_similarity does not catch it. -/
inductive SimError where
  | dimensionMismatch
deriving DecidableEq

/-- Embedding of cosine_similarity: dot product and Euclidean norms,
the exact-zero-norm fallback 0.0, otherwise dot / (norm1 * norm2).
The norm1 == 0 test on the float norm is the sumSq = 0 test in exact
arithmetic, and the returned float value dot / (norm1 * norm2) is the
score d / sqrt(s1 * s2), encoded canonically by mkScore (whose
positivity argument witnesses that the divisor is nonzero). -/
def cosine_similarity (vec1 vec2 : List ℚ) : Except SimError Score :=
  if vec1.length ≠ vec2.length then Except.error SimError.dimensionMismatch
  else if h : sumSq vec1 = 0 ∨ sumSq vec2 = 0 then Except.ok zeroScore
  else
    Except.ok (mkScore (dot vec1 vec2) (sumSq vec1 * sumSq vec2)
      (mul_pos
        (lt_of_le_of_ne (sumSq_nonneg vec1) (fun hh => h (Or.inl hh.symm)))
        (lt_of_le_of_ne (sumSq_nonneg vec2) (fun hh => h (Or.inr hh.symm)))))

/-- One entry of the list search_similar_vectors builds per candidate:
the dict with id, similarity, metadata, vector. -/
structure ScoredResult where
  id : String
  similarity : Score
  metadata : Metadata
  vector : List ℚ
deriving DecidableEq

/-- Before-or-equal relation of the descending stable sort
similarities.sort(key=..., reverse=True): x precedes y when
x.similarity >= y.similarity. -/
def resultRel (x y : ScoredResult) : Prop :=
  Score.le y.similarity x.similarity

instance : DecidableRel resultRel := fun x y =>
  inferInstanceAs (Decidable (Score.le _ _))

instance : IsTotal ScoredResult resultRel where
  total a b := by
    rcases le_total b.similarity.toReal a.similarity.toReal with h | h
    · exact Or.inl ((Score.le_iff_toReal _ _).mpr h)
    · exact Or.inr ((Score.le_iff_toReal _ _).mpr h)

instance : IsTrans ScoredResult resultRel where
  trans a b c hab hbc := by
    have h1 := (Score.le_iff_toReal _ _).mp hab
    have h2 := (Score.le_iff_toReal _ _).mp hbc
    exact (Score.le_iff_toReal _ _).mpr (le_trans h2 h1)

/-- Key naming convention of the client: "vectors/<id>.json". -/
def vectorsPfx : String := "vectors/"

/-- Storage key suffix convention. -/
def jsonSuf : String := ".json"

/-- Key under which insert_vector/get_vector/delete_vector address the
record of a given id. -/
def vecKey (vector_id : String) : String :=
  vectorsPfx ++ vector_id ++ jsonSuf

/-- Lookup of a key in the bucket contents (what get_object sees). -/
def findObj : List (String × ObjBody) → String → Option ObjBody
  | [], _ => none
  | (k, b) :: rest, key => if k = key then some b else findObj rest key

/-- Effect of put_object: overwrite the object stored under the key. -/
def putObj (objs : List (String × ObjBody)) (key : String) (b : ObjBody) :
    List (String × ObjBody) :=
  (key, b) :: objs.filter (fun kv => kv.1 != key)

/-- Embedding of insert_vector: build the key and the JSON document
and put it; any exception (modelled by the failPut flag of the key) is
caught and reported as False, success as True. -/
def insert_vector (st : S3State) (vector_id : String) (vector : List ℚ)
    (metadata : Metadata) : S3State × Bool :=
  let key := vecKey vector_id
  if st.failPut key then (st, false)
  else
    ({ st with objects := putObj st.objects key (ObjBody.record ⟨vector_id, vector, metadata⟩) },
      true)

/-- Embedding of batch_insert_vectors: insert each record in order,
counting the successful ones; a failed insert neither stops the loop
nor raises. -/
def batch_insert_vectors (st : S3State) :
    List (String × List ℚ × Metadata) → S3State × Nat
  | [] => (st, 0)
  | (vector_id, vector, metadata) :: rest =>
    let step := insert_vector st vector_id vector metadata
    let restRun := batch_insert_vectors step.1 rest
    (restRun.1, if step.2 then restRun.2 + 1 else restRun.2)

/-- Embedding of get_vector: get_object on the conventional key and
parse; every exception (get failure, missing key, malformed body) is
caught and turned into None. -/
def get_vector (st : S3State) (vector_id : String) : Option VecRecord :=
  let key := vecKey vector_id
  if st.failGet key then none
  else
    match findObj st.objects key with
    | some (ObjBody.record r) => some r
    | some ObjBody.malformed => none
    | none => none

/-- Embedding of list_objects_v2: none when the adapter raises,
otherwise the stored keys matching the prefix, at most maxKeys of
them, in store order. -/
def list_objects_v2 (st : S3State) (pfx : String) (maxKeys : Nat) :
    Option (List (String × ObjBody)) :=
  if st.listFails then none
  else some ((st.objects.filter (fun kv => strStartsWith pfx kv.1)).take maxKeys)

/-- Embedding of list_vectors: list keys under the prefix, keep those
ending in ".json", and derive each id as
key.replace(prefix, '').replace('.json', '') — Python replace deletes
every occurrence, not only the leading/trailing one.  A listing
failure is caught and yields []. -/
def list_vectors (st : S3State) (pfx : String) (max_keys : Nat) : List String :=
  match list_objects_v2 st pfx max_keys with
  | none => []
  | some entries =>
    entries.filterMap (fun kv =>
      if strEndsWith jsonSuf kv.1 then
        some ⟨removeAll jsonSuf.data (removeAll pfx.data kv.1.data)⟩
      else none)

/-- The candidate loop of search_similar_vectors: for each listed key,
fetch and parse the object and score it against the query, skipping
(continue) any candidate whose get, parse or scoring raises; the
surviving candidates appear in listing order.  A listing failure is
caught by the outer handler, which returns []. -/
def enumCandidates (st : S3State) (query : List ℚ) (pfx : String) : List ScoredResult :=
  match list_objects_v2 st pfx 1000 with
  | none => []
  | some entries =>
    entries.filterMap (fun kv =>
      if st.failGet kv.1 then none
      else
        match kv.2 with
        | ObjBody.malformed => none
        | ObjBody.record r =>
          match cosine_similarity query r.vector with
          | Except.error _ => none
          | Except.ok s => some ⟨r.id, s, r.metadata, r.vector⟩)

/-- Python slicing l[:k] for an int k: the first k entries when
0 <= k, and all but the last |k| entries when k < 0. -/
def pyTake (k : Int) (l : List α) : List α :=
  l.take (if 0 ≤ k then k.toNat else l.length - (-k).toNat)

/-- Embedding of search_similar_vectors: enumerate and score the
candidates, sort them descending by similarity with a stable sort
(similarities.sort(key=..., reverse=True)) and slice the first k. -/
def search_similar_vectors (st : S3State) (query : List ℚ) (k : Int) (pfx : String) :
    List ScoredResult :=
  pyTake k (List.insertionSort resultRel (enumCandidates st query pfx))

/-- Requests search_similar_vectors can address to the store. -/
inductive S3Request where
  | listReq (pfx : String)
  | getReq (key : String)
  | putReq (key : String) (b : ObjBody)
  | deleteReq (key : String)
deriving DecidableEq

/-- The request trace of one search: one list request, then one get
request per listed key (every candidate is fetched, whatever its
content); nothing else, whatever q and k are. -/
def searchRequests (st : S3State) (pfx : String) : List S3Request :=
  S3Request.listReq pfx ::
    (match list_objects_v2 st pfx 1000 with
     | none => []
     | some entries => entries.map (fun kv => S3Request.getReq kv.1))

/-- Effect of one request on the bucket contents: list and get leave
the store untouched, put overwrites, delete removes. -/
def applyRequest (st : S3State) : S3Request → S3State
  | S3Request.listReq _ => st
  | S3Request.getReq _ => st
  | S3Request.putReq key b => { st with objects := putObj st.objects key b }
  | S3Request.deleteReq key => { st with objects := st.objects.filter (fun kv => kv.1 != key) }

/-- Read-only requests. -/
def isReadOnly : S3Request → Bool
  | S3Request.listReq _ => true
  | S3Request.getReq _ => true
  | S3Request.putReq _ _ => false
  | S3Request.deleteReq _ => false

/-- Inserting an element satisfying p into a list: the elements the
insertion walks past fail p, so the p-filter gains a at its front. -/
theorem filter_orderedInsert_pos (r : α → α → Prop) [DecidableRel r] (p : α → Bool)
    (a : α) (l : List α) (hpa : p a = true)
    (h : ∀ b ∈ l, ¬ r a b → p b = false) :
    (List.orderedInsert r a l).filter p = a :: l.filter p := by
  induction l with
  | nil => simp [List.orderedInsert, hpa]
  | cons b bl ih =>
    by_cases hr : r a b
    · simp only [List.orderedInsert, if_pos hr]
      rw [List.filter_cons_of_pos hpa]
    · simp only [List.orderedInsert, if_neg hr]
      have hpb : p b = false := h b (List.mem_cons_self b bl) hr
      rw [List.filter_cons_of_neg (by simp [hpb]), List.filter_cons_of_neg (by simp [hpb])]
      exact ih (fun c hc hrc => h c (List.mem_cons_of_mem b hc) hrc)

/-- Inserting an element failing p does not change the p-filter. -/
theorem filter_orderedInsert_neg (r : α → α → Prop) [DecidableRel r] (p : α → Bool)
    (a : α) (l : List α) (hpa : p a = false) :
    (List.orderedInsert r a l).filter p = l.filter p := by
  induction l with
  | nil => simp [List.orderedInsert, hpa]
  | cons b bl ih =>
    by_cases hr : r a b
    · simp only [List.orderedInsert, if_pos hr]
      rw [List.filter_cons_of_neg (by simp [hpa])]
    · simp only [List.orderedInsert, if_neg hr]
      by_cases hpb : p b = true
      · rw [List.filter_cons_of_pos hpb, List.filter_cons_of_pos hpb, ih]
      · have hpb2 : p b = false := by simpa using hpb
        rw [List.filter_cons_of_neg (by simp [hpb2]), List.filter_cons_of_neg (by simp [hpb2]), ih]

/-- Stability of insertion sort: for a predicate p that never holds of
an element strictly greater (under r) than some p-element, sorting
does not reorder the p-elements.  With p = "has score c" this says
equal-scored elements keep their relative order. -/
theorem filter_insertionSort (r : α → α → Prop) [DecidableRel r] (p : α → Bool)
    (hp : ∀ a b, p a = true → ¬ r a b → p b = false) (l : List α) :
    (List.insertionSort r l).filter p = l.filter p := by
  induction l with
  | nil => rfl
  | cons a l ih =>
    show (List.orderedInsert r a (List.insertionSort r l)).filter p = _
    by_cases hpa : p a = true
    · rw [filter_orderedInsert_pos r p a _ hpa (fun b _ hrb => hp a b hpa hrb), ih,
        List.filter_cons_of_pos hpa]
    · have hpa2 : p a = false := by simpa using hpa
      rw [filter_orderedInsert_neg r p a _ hpa2, ih, List.filter_cons_of_neg (by simp [hpa2])]

/-- Truncation only shortens a filter from the back: the filter of a
prefix is a prefix of the filter. -/
theorem filter_take_isPrefix (p : α → Bool) :
    ∀ (n : Nat) (l : List α), (l.take n).filter p <+: l.filter p := by
  intro n l
  induction l generalizing n with
  | nil => simp
  | cons a l ih =>
    cases n with
    | zero => simp
    | succ m =>
      rw [List.take_succ_cons]
      by_cases hpa : p a = true
      · rw [List.filter_cons_of_pos hpa, List.filter_cons_of_pos hpa]
        exact List.cons_prefix_cons.mpr ⟨rfl, ih m⟩
      · have hpa2 : p a = false := by simpa using hpa
        rw [List.filter_cons_of_neg (by simp [hpa2]), List.filter_cons_of_neg (by simp [hpa2])]
        exact ih m

/-- Fault-free adapter flag assignment for concrete example stores. -/
def noFail : String → Bool := fun _ => false

/-- Concrete store with two retrievable records of equal score, used
to exercise the search on concrete inputs. -/
def demoStore : S3State :=
  { objects :=
      [ (vecKey ("a"), ObjBody.record ⟨"a", [1], []⟩)
      , (vecKey ("b"), ObjBody.record ⟨"b", [1], []⟩) ]
    failPut := noFail
    failGet := noFail
    listFails := false }

/-- C1: for every query vector, every k and every store of candidate
records, search_similar_vectors returns a sequence sorted in
descending order of score; and for every score value c, the results
carrying c appear in exactly the order the candidates carrying c were
enumerated from the store listing (the filter of the result by c is a
prefix of the filter of the enumeration by c).  The last conjunct
identifies representation equality of scores with equality of the
real score values, so the tie condition is genuinely "equal float
score". -/
theorem search_sorted_desc_and_stable (st : S3State) (query : List ℚ) (k : Int) (pfx : String) :
    List.Sorted (fun x y : ScoredResult => y.similarity.toReal ≤ x.similarity.toReal)
      (search_similar_vectors st query k pfx) ∧
    (∀ c : Score,
      (search_similar_vectors st query k pfx).filter (fun r => decide (r.similarity = c)) <+:
        (enumCandidates st query pfx).filter (fun r => decide (r.similarity = c))) ∧
    (∀ s t : Score, s = t ↔ s.toReal = t.toReal) := by
  refine ⟨?_, ?_, fun s t => Score.eq_iff_toReal s t⟩
  · have hs : List.Sorted resultRel
        (List.insertionSort resultRel (enumCandidates st query pfx)) :=
      List.sorted_insertionSort resultRel _
    have hsub : List.Sublist (search_similar_vectors st query k pfx)
        (List.insertionSort resultRel (enumCandidates st query pfx)) :=
      List.take_sublist _ _
    exact (List.Pairwise.sublist hsub hs).imp (fun h => (Score.le_iff_toReal _ _).mp h)
  · intro c
    have hp : ∀ a b : ScoredResult, decide (a.similarity = c) = true → ¬ resultRel a b →
        decide (b.similarity = c) = false := by
      intro a b hpa hr
      have hac : a.similarity = c := of_decide_eq_true hpa
      have hlt : a.similarity.toReal < b.similarity.toReal := by
        have : ¬ b.similarity.toReal ≤ a.similarity.toReal :=
          fun hle => hr ((Score.le_iff_toReal _ _).mpr hle)
        exact lt_of_not_ge this
      have hne : b.similarity ≠ c := by
        intro hbc
        rw [hac] at hlt
        rw [hbc] at hlt
        exact lt_irrefl _ hlt
      exact decide_eq_false hne
    have heq := filter_insertionSort resultRel (fun r => decide (r.similarity = c)) hp
      (enumCandidates st query pfx)
    have h2 := filter_take_isPrefix (fun r => decide (r.similarity = c))
      (if 0 ≤ k then k.toNat
        else (List.insertionSort resultRel (enumCandidates st query pfx)).length - (-k).toNat)
      (List.insertionSort resultRel (enumCandidates st query pfx))
    rw [heq] at h2
    exact h2

/-- C2: for positive k the number of results is min(k, number of
valid candidates), where the valid candidates are the listed entries
that fetch, parse and score without error; and an empty listing under
the prefix yields the empty result sequence, not an error. -/
theorem search_length_eq_min (st : S3State) (query : List ℚ) (k : Int) (pfx : String)
    (hk : 0 < k) :
    (search_similar_vectors st query k pfx).length
      = min k.toNat (enumCandidates st query pfx).length ∧
    (list_objects_v2 st pfx 1000 = some [] → search_similar_vectors st query k pfx = []) := by
  constructor
  · unfold search_similar_vectors pyTake
    rw [if_pos (le_of_lt hk), List.length_take, List.length_insertionSort]
  · intro h
    have hc : enumCandidates st query pfx = [] := by
      unfold enumCandidates
      rw [h]
      rfl
    unfold search_similar_vectors pyTake
    rw [hc]
    simp [List.insertionSort]

/-- Witness for C2 at a concrete store with two valid candidates and
k = 1: hypotheses hold and the length equation is delivered by the
theorem. -/
theorem search_length_eq_min_witness :
    (0 : Int) < 1 ∧
    ((search_similar_vectors demoStore [1] 1 vectorsPfx).length
        = min (1 : Int).toNat (enumCandidates demoStore [1] vectorsPfx).length ∧
      (list_objects_v2 demoStore vectorsPfx 1000 = some [] →
        search_similar_vectors demoStore [1] 1 vectorsPfx = [])) :=
  ⟨by decide, search_length_eq_min demoStore [1] 1 vectorsPfx (by decide)⟩

/-- Counterexample to C3 as stated: the code never validates k.  At a
store with two valid candidates, searching with k = -1 returns a
non-empty result sequence (Python similarities[:-1]); no
InvalidArgument failure occurs — the embedded search is a total
function into result lists. -/
theorem search_k_neg_one_returns_results :
    (search_similar_vectors demoStore [1] (-1) vectorsPfx).map (fun r => r.id) = ["a"] ∧
    (search_similar_vectors demoStore [1] (-1) vectorsPfx).length = 1 := by
  constructor <;>
    norm_num [search_similar_vectors, enumCandidates, list_objects_v2, demoStore, noFail,
      strStartsWith, vecKey, vectorsPfx, jsonSuf, cosine_similarity, sumSq, dot, mkScore,
      pyTake, List.insertionSort, List.orderedInsert, resultRel, Score.le, zeroScore,
      List.filter, List.filterMap, List.take]

/-- C3 amended: search with k <= 0 does not fail and returns a result
sequence following Python slice semantics: k = 0 yields the empty
sequence, and k < 0 yields the ranked sequence without its last |k|
entries (all candidates ranked, minus |k|, truncated at zero). -/
theorem search_nonpositive_k_returns_list (st : S3State) (query : List ℚ) (k : Int)
    (pfx : String) (hk : k ≤ 0) :
    (k = 0 → search_similar_vectors st query k pfx = []) ∧
    (k < 0 → (search_similar_vectors st query k pfx).length
        = (enumCandidates st query pfx).length - (-k).toNat) := by
  constructor
  · intro h0
    subst h0
    unfold search_similar_vectors pyTake
    rw [if_pos (le_refl (0 : Int))]
    rfl
  · intro hneg
    unfold search_similar_vectors pyTake
    rw [if_neg (not_le.mpr hneg), List.length_take, List.length_insertionSort]
    exact min_eq_left (Nat.sub_le _ _)

/-- Witness for the amended C3 at k = -1 on the concrete store. -/
theorem search_nonpositive_k_returns_list_witness :
    (-1 : Int) ≤ 0 ∧
    (((-1 : Int) = 0 → search_similar_vectors demoStore [1] (-1) vectorsPfx = []) ∧
      ((-1 : Int) < 0 → (search_similar_vectors demoStore [1] (-1) vectorsPfx).length
          = (enumCandidates demoStore [1] vectorsPfx).length - (-(-1 : Int)).toNat)) :=
  ⟨by decide, search_nonpositive_k_returns_list demoStore [1] (-1) vectorsPfx (by decide)⟩

/-- Value of a constructed score: mkScore d s encodes exactly the real
number d / sqrt s. -/
theorem mkScore_toReal (d s : ℚ) (hs : 0 < s) :
    (mkScore d s hs).toReal = ((d : ℚ) : ℝ) / Real.sqrt ((s : ℚ) : ℝ) := by
  have hsR : (0 : ℝ) < ((s : ℚ) : ℝ) := by exact_mod_cast hs
  by_cases hd : 0 < d
  · rw [mkScore, dif_pos hd]
    show ((1 : Int) : ℝ) * Real.sqrt (((d ^ 2 / s : ℚ) : ℝ)) = _
    have hcast : ((d ^ 2 / s : ℚ) : ℝ) = ((d : ℚ) : ℝ) ^ 2 / ((s : ℚ) : ℝ) := by push_cast; ring
    rw [hcast, Real.sqrt_div (sq_nonneg _), Real.sqrt_sq (by exact_mod_cast le_of_lt hd)]
    push_cast
    ring
  · by_cases hd2 : d < 0
    · rw [mkScore, dif_neg hd, dif_pos hd2]
      show ((-1 : Int) : ℝ) * Real.sqrt (((d ^ 2 / s : ℚ) : ℝ)) = _
      have hcast : ((d ^ 2 / s : ℚ) : ℝ) = ((d : ℚ) : ℝ) ^ 2 / ((s : ℚ) : ℝ) := by
        push_cast; ring
      have hdR : ((d : ℚ) : ℝ) < 0 := by exact_mod_cast hd2
      rw [hcast, Real.sqrt_div (sq_nonneg _), Real.sqrt_sq_eq_abs, abs_of_neg hdR]
      push_cast
      ring
    · have hd0 : d = 0 := le_antisymm (not_lt.mp hd) (not_lt.mp hd2)
      rw [mkScore, dif_neg hd, dif_neg hd2]
      show ((0 : Int) : ℝ) * Real.sqrt (((0 : ℚ) : ℝ)) = _
      rw [hd0]
      simp

/-- C4: the scoring function fails with the dimension-mismatch error
exactly when the operand lengths differ (the uncaught numpy shape
error), and on equal lengths returns the cosine similarity
dot(a,b) / (‖a‖ * ‖b‖) with the standard Euclidean norms (real
division, which is 0 when a norm vanishes, matching the 0.0
fallback). -/
theorem cosine_similarity_dimension_and_value (a b : List ℚ) :
    (a.length ≠ b.length →
      cosine_similarity a b = Except.error SimError.dimensionMismatch) ∧
    (a.length = b.length → ∃ s : Score, cosine_similarity a b = Except.ok s ∧
      s.toReal = ((dot a b : ℚ) : ℝ) / (euclidNorm a * euclidNorm b)) := by
  constructor
  · intro h
    rw [cosine_similarity, if_pos h]
  · intro h
    rw [cosine_similarity, if_neg (by simp [h])]
    by_cases h0 : sumSq a = 0 ∨ sumSq b = 0
    · rw [dif_pos h0]
      refine ⟨zeroScore, rfl, ?_⟩
      rw [zeroScore_toReal]
      rcases h0 with h0 | h0
      · rw [show euclidNorm a = 0 from (euclidNorm_eq_zero_iff a).mpr h0]
        simp
      · rw [show euclidNorm b = 0 from (euclidNorm_eq_zero_iff b).mpr h0]
        simp
    · rw [dif_neg h0]
      refine ⟨_, rfl, ?_⟩
      rw [mkScore_toReal]
      have hcast : ((sumSq a * sumSq b : ℚ) : ℝ)
          = ((sumSq a : ℚ) : ℝ) * ((sumSq b : ℚ) : ℝ) := by push_cast; ring
      rw [hcast, Real.sqrt_mul (by exact_mod_cast sumSq_nonneg a)]
      rfl

/-- Witness for C4: a mismatched pair fails with the dimension error,
and an equal-length pair returns the cosine value. -/
theorem cosine_similarity_dimension_and_value_witness :
    (([1] : List ℚ).length ≠ ([1, 2] : List ℚ).length ∧
      cosine_similarity [1] [1, 2] = Except.error SimError.dimensionMismatch) ∧
    (([1, 0] : List ℚ).length = ([0, 1] : List ℚ).length ∧
      ∃ s : Score, cosine_similarity [1, 0] [0, 1] = Except.ok s ∧
        s.toReal = ((dot [1, 0] [0, 1] : ℚ) : ℝ) / (euclidNorm [1, 0] * euclidNorm [0, 1])) :=
  ⟨⟨by decide, (cosine_similarity_dimension_and_value [1] [1, 2]).1 (by decide)⟩,
    ⟨rfl, (cosine_similarity_dimension_and_value [1, 0] [0, 1]).2 rfl⟩⟩

/-- C5: for equal-length operands, a vanishing Euclidean norm on
either side makes the function return exactly the 0.0 score through
the guarded branch; and when both norms are nonzero the result is
produced by mkScore applied to the divisor sumSq a * sumSq b together
with a proof of its positivity, so the division is never performed
with a zero divisor. -/
theorem cosine_similarity_zero_norm_policy (a b : List ℚ) (hlen : a.length = b.length) :
    (euclidNorm a = 0 ∨ euclidNorm b = 0 →
      cosine_similarity a b = Except.ok zeroScore ∧ zeroScore.toReal = 0) ∧
    (euclidNorm a ≠ 0 → euclidNorm b ≠ 0 → ∃ hpos : 0 < sumSq a * sumSq b,
      cosine_similarity a b = Except.ok (mkScore (dot a b) (sumSq a * sumSq b) hpos)) := by
  constructor
  · intro h0
    have h0' : sumSq a = 0 ∨ sumSq b = 0 := by
      rcases h0 with h0 | h0
      · exact Or.inl ((euclidNorm_eq_zero_iff a).mp h0)
      · exact Or.inr ((euclidNorm_eq_zero_iff b).mp h0)
    constructor
    · rw [cosine_similarity, if_neg (by simp [hlen]), dif_pos h0']
    · exact zeroScore_toReal
  · intro ha hb
    have ha' : sumSq a ≠ 0 := fun h => ha ((euclidNorm_eq_zero_iff a).mpr h)
    have hb' : sumSq b ≠ 0 := fun h => hb ((euclidNorm_eq_zero_iff b).mpr h)
    have hpos : 0 < sumSq a * sumSq b :=
      mul_pos (lt_of_le_of_ne (sumSq_nonneg a) (Ne.symm ha'))
        (lt_of_le_of_ne (sumSq_nonneg b) (Ne.symm hb'))
    refine ⟨hpos, ?_⟩
    rw [cosine_similarity, if_neg (by simp [hlen]), dif_neg (by push_neg; exact ⟨ha', hb'⟩)]

/-- Witness for C5: the zero branch at the zero vector, and the
positive-divisor branch at nonzero vectors. -/
theorem cosine_similarity_zero_norm_policy_witness :
    (([0, 0] : List ℚ).length = ([1, 2] : List ℚ).length ∧
      euclidNorm [0, 0] = 0 ∧
      (cosine_similarity [0, 0] [1, 2] = Except.ok zeroScore ∧ zeroScore.toReal = 0)) ∧
    (euclidNorm [1] ≠ 0 ∧
      ∃ hpos : 0 < sumSq [1] * sumSq [1],
        cosine_similarity [1] [1]
          = Except.ok (mkScore (dot [1] [1]) (sumSq [1] * sumSq [1]) hpos)) := by
  have h00 : euclidNorm [0, 0] = 0 := by
    rw [euclidNorm_eq_zero_iff]
    norm_num [sumSq, dot]
  have h1 : euclidNorm [1] ≠ 0 := by
    rw [Ne, euclidNorm_eq_zero_iff]
    norm_num [sumSq, dot]
  exact ⟨⟨rfl, h00, (cosine_similarity_zero_norm_policy [0, 0] [1, 2] rfl).1 (Or.inl h00)⟩,
    ⟨h1, (cosine_similarity_zero_norm_policy [1] [1] rfl).2 h1 h1⟩⟩

/-- Adapter failure profile that rejects exactly the put of record
"r3", for the concrete batch scenario. -/
def failR3 : String → Bool := fun key => key == vecKey ("r3")

/-- Empty store whose adapter rejects only the put of "r3". -/
def batchStore : S3State :=
  { objects := [], failPut := failR3, failGet := noFail, listFails := false }

/-- C6: batch_insert_vectors attempts every record in order and never
re-raises: the returned count is exactly the number of records whose
individual put the adapter accepts, whatever happens to the others;
in particular a 5-record batch whose third put fails returns 4. -/
theorem batch_insert_counts_successes :
    (∀ (st : S3State) (vectors : List (String × List ℚ × Metadata)),
      (batch_insert_vectors st vectors).2
        = List.countP (fun r => !st.failPut (vecKey r.1)) vectors) ∧
    (batch_insert_vectors batchStore
      [(("r1" : String), ([1] : List ℚ), ([] : Metadata)),
       (("r2" : String), ([1] : List ℚ), ([] : Metadata)),
       (("r3" : String), ([1] : List ℚ), ([] : Metadata)),
       (("r4" : String), ([1] : List ℚ), ([] : Metadata)),
       (("r5" : String), ([1] : List ℚ), ([] : Metadata))]).2 = 4 := by
  constructor
  · intro st vectors
    induction vectors generalizing st with
    | nil => rfl
    | cons v rest ih =>
      obtain ⟨vector_id, vector, metadata⟩ := v
      by_cases hf : st.failPut (vecKey vector_id) = true
      · simp [batch_insert_vectors, insert_vector, hf, ih, List.countP_cons]
      · have hf2 : st.failPut (vecKey vector_id) = false := by simpa using hf
        simp [batch_insert_vectors, insert_vector, hf2, ih, List.countP_cons]
  · decide

/-- Store with no objects and a fault-free adapter. -/
def emptyStore : S3State :=
  { objects := [], failPut := noFail, failGet := noFail, listFails := false }

/-- C8: inserting a record and then retrieving it by the same id
returns a record with identical id, vector and metadata, provided the
adapter accepts the put and the get of that key (the serialization
through the store is lossless). -/
theorem insert_then_get_roundtrip (st : S3State) (vector_id : String) (vector : List ℚ)
    (metadata : Metadata) (hput : st.failPut (vecKey vector_id) = false)
    (hget : st.failGet (vecKey vector_id) = false) :
    (insert_vector st vector_id vector metadata).2 = true ∧
    get_vector (insert_vector st vector_id vector metadata).1 vector_id
      = some ⟨vector_id, vector, metadata⟩ := by
  unfold insert_vector get_vector
  simp [hput, hget, putObj, findObj]

/-- Witness for C8 on the empty fault-free store. -/
theorem insert_then_get_roundtrip_witness :
    emptyStore.failPut (vecKey ("x")) = false ∧
    emptyStore.failGet (vecKey ("x")) = false ∧
    ((insert_vector emptyStore ("x") [1, 2] [(("k" : String), JVal.jnum 3)]).2 = true ∧
      get_vector (insert_vector emptyStore ("x") [1, 2] [(("k" : String), JVal.jnum 3)]).1 ("x")
        = some ⟨"x", [1, 2], [(("k" : String), JVal.jnum 3)]⟩) :=
  ⟨rfl, rfl,
    insert_then_get_roundtrip emptyStore ("x") [1, 2] [(("k" : String), JVal.jnum 3)] rfl rfl⟩

/-- Filtering away elements the partial map sends to none does not
change its result. -/
theorem filterMap_filter_eq_of_none {α β : Type _} (f : α → Option β) (p : α → Bool)
    (h : ∀ a, p a = false → f a = none) (l : List α) :
    (l.filter p).filterMap f = l.filterMap f := by
  induction l with
  | nil => rfl
  | cons a l ih =>
    by_cases hpa : p a = true
    · rw [List.filter_cons_of_pos hpa, List.filterMap_cons, List.filterMap_cons]
      cases f a <;> simp [ih]
    · have hpa2 : p a = false := by simpa using hpa
      rw [List.filter_cons_of_neg (by simp [hpa2]), List.filterMap_cons, h a hpa2, ih]

/-- The store purged of every entry one search skips: entries whose
get fails and entries whose body does not parse. -/
def cleanStore (st : S3State) : S3State :=
  { st with
    objects := st.objects.filter (fun kv =>
      !st.failGet kv.1 &&
        (match kv.2 with
         | ObjBody.record _ => true
         | ObjBody.malformed => false)) }

/-- Store holding one perfectly valid record but whose adapter raises
on the list call. -/
def downStore : S3State :=
  { objects := [ (vecKey ("a"), ObjBody.record ⟨"a", [1], []⟩) ]
    failPut := noFail
    failGet := noFail
    listFails := true }

/-- Counterexample to C9 as stated: when the list call itself fails,
search_similar_vectors does not propagate the failure — the outer
exception handler catches it and the call returns the empty result
list, even though the store holds a valid retrievable record. -/
theorem search_list_failure_returns_empty :
    search_similar_vectors downStore [1] 5 vectorsPfx = [] ∧
    get_vector downStore ("a") = some ⟨"a", [1], []⟩ := by
  constructor
  · rfl
  · simp [get_vector, downStore, findObj, vecKey, noFail]

/-- C9 amended: a failure of the store's list operation is contained
inside search_similar_vectors, which returns the empty sequence
instead of propagating; and per-candidate retrieval or parsing
failures are skipped locally — purging the failing entries from the
store does not change the enumerated candidates (stated for listings
the 1000-key page bound does not truncate). -/
theorem search_list_failure_contained (st : S3State) (query : List ℚ) (k : Int)
    (pfx : String) :
    (st.listFails = true → search_similar_vectors st query k pfx = []) ∧
    ((st.objects.filter (fun kv => strStartsWith pfx kv.1)).length ≤ 1000 →
      enumCandidates st query pfx = enumCandidates (cleanStore st) query pfx) := by
  constructor
  · intro h
    have hc : enumCandidates st query pfx = [] := by
      unfold enumCandidates list_objects_v2
      rw [h]
      rfl
    unfold search_similar_vectors pyTake
    rw [hc]
    simp [List.insertionSort]
  · intro hlen
    have key : ∀ (m : List (String × ObjBody)),
        (m.filter (fun kv =>
          !st.failGet kv.1 &&
            (match kv.2 with
             | ObjBody.record _ => true
             | ObjBody.malformed => false))).filterMap (fun kv =>
          if st.failGet kv.1 = true then none
          else
            match kv.2 with
            | ObjBody.malformed => none
            | ObjBody.record r =>
              match cosine_similarity query r.vector with
              | Except.error _ => none
              | Except.ok s => some (ScoredResult.mk r.id s r.metadata r.vector))
        = m.filterMap (fun kv =>
          if st.failGet kv.1 = true then none
          else
            match kv.2 with
            | ObjBody.malformed => none
            | ObjBody.record r =>
              match cosine_similarity query r.vector with
              | Except.error _ => none
              | Except.ok s => some (ScoredResult.mk r.id s r.metadata r.vector)) := by
      intro m
      apply filterMap_filter_eq_of_none
      intro kv hkv
      by_cases hg : st.failGet kv.1 = true
      · simp [hg]
      · have hg2 : st.failGet kv.1 = false := by simpa using hg
        rw [hg2] at hkv
        cases hb : kv.2 with
        | record r => rw [hb] at hkv; simp at hkv
        | malformed => simp [hg2, hb]
    unfold enumCandidates list_objects_v2 cleanStore
    by_cases hl : st.listFails = true
    · rw [hl]
      rfl
    · have hl2 : st.listFails = false := by simpa using hl
      rw [hl2]
      have hsub : List.Sublist
          ((st.objects.filter (fun kv =>
            !st.failGet kv.1 &&
              (match kv.2 with
               | ObjBody.record _ => true
               | ObjBody.malformed => false))).filter (fun kv => strStartsWith pfx kv.1))
          (st.objects.filter (fun kv => strStartsWith pfx kv.1)) :=
        List.Sublist.filter _ (List.filter_sublist _)
      rw [List.take_of_length_le hlen,
        List.take_of_length_le (le_trans hsub.length_le hlen),
        List.filter_comm]
      exact (key (st.objects.filter (fun kv => strStartsWith pfx kv.1))).symm

/-- Witness for the amended C9: the containment branch at the
one-record store with a failing list call, and the skip branch at the
fault-free two-record store. -/
theorem search_list_failure_contained_witness :
    (downStore.listFails = true ∧
      search_similar_vectors downStore [1] 5 vectorsPfx = []) ∧
    ((demoStore.objects.filter (fun kv => strStartsWith vectorsPfx kv.1)).length ≤ 1000 ∧
      enumCandidates demoStore [1] vectorsPfx
        = enumCandidates (cleanStore demoStore) [1] vectorsPfx) :=
  ⟨⟨rfl, (search_list_failure_contained downStore [1] 5 vectorsPfx).1 rfl⟩,
    ⟨by decide, (search_list_failure_contained demoStore [1] 5 vectorsPfx).2 (by decide)⟩⟩

/-- A trace of read-only requests leaves the store state untouched. -/
theorem foldl_applyRequest_readOnly (st : S3State) (l : List S3Request)
    (h : ∀ r ∈ l, isReadOnly r = true) : List.foldl applyRequest st l = st := by
  induction l generalizing st with
  | nil => rfl
  | cons r l ih =>
    have hr := h r (List.mem_cons_self r l)
    have hst : applyRequest st r = st := by
      cases r <;> first | rfl | (exact absurd hr (by simp [isReadOnly]))
    rw [List.foldl_cons, hst]
    exact ih st (fun q hq => h q (List.mem_cons_of_mem r hq))

/-- C10: the request trace of a search consists solely of list and get
requests — never put or delete — so replaying it against the store
leaves every stored object unchanged and every record retrievable
before the search is retrievable with identical contents afterwards. -/
theorem search_requests_read_only (st : S3State) (pfx : String) :
    (∀ r ∈ searchRequests st pfx, isReadOnly r = true) ∧
    List.foldl applyRequest st (searchRequests st pfx) = st ∧
    (∀ vector_id, get_vector (List.foldl applyRequest st (searchRequests st pfx)) vector_id
        = get_vector st vector_id) := by
  have hro : ∀ r ∈ searchRequests st pfx, isReadOnly r = true := by
    intro r hr
    unfold searchRequests at hr
    rcases List.mem_cons.mp hr with rfl | hr2
    · rfl
    · cases h : list_objects_v2 st pfx 1000 with
      | none => rw [h] at hr2; simp at hr2
      | some entries =>
        rw [h] at hr2
        obtain ⟨kv, _, rfl⟩ := List.mem_map.mp hr2
        rfl
  have hfold : List.foldl applyRequest st (searchRequests st pfx) = st :=
    foldl_applyRequest_readOnly st _ hro
  exact ⟨hro, hfold, fun vector_id => by rw [hfold]⟩

/-- The replace-all scan deletes a leading occurrence of the pattern
and continues. -/
theorem removeAll_append_self (pat s : List Char) (hne : pat ≠ []) :
    removeAll pat (pat ++ s) = removeAll pat s := by
  cases pat with
  | nil => exact absurd rfl hne
  | cons p ps =>
    rw [List.cons_append, removeAll, dif_neg (List.cons_ne_nil p ps)]
    have hpre : (p :: ps).isPrefixOf (p :: (ps ++ s)) = true := by
      rw [← List.cons_append]
      exact List.isPrefixOf_iff_prefix.mpr (List.prefix_append (p :: ps) s)
    rw [if_pos hpre]
    have hdrop : (p :: (ps ++ s)).drop (p :: ps).length = s := by
      rw [← List.cons_append]
      exact List.drop_left (p :: ps) s
    rw [hdrop]

/-- A string free of occurrences of the pattern is left unchanged by
the replace-all scan. -/
theorem removeAll_of_not_occursIn (pat s : List Char) (h : occursIn pat s = false) :
    removeAll pat s = s := by
  induction s with
  | nil => simp [removeAll]
  | cons c rest ih =>
    rw [occursIn, List.tails_cons, List.any_cons] at h
    obtain ⟨h1, h2⟩ := Bool.or_eq_false_iff.mp h
    have hne : pat ≠ [] := by
      intro hp
      subst hp
      simp [List.isPrefixOf] at h1
    rw [removeAll, dif_neg hne, if_neg (by simp [h1]), ih h2]

/-- When the pattern occurs in m ++ pat only as the final suffix
(every strictly longer tail fails to start with it), the replace-all
scan deletes exactly that suffix. -/
theorem removeAll_append_pat (pat m : List Char) (hne : pat ≠ [])
    (h : ∀ t ∈ (m ++ pat).tails, pat.length < t.length → pat.isPrefixOf t = false) :
    removeAll pat (m ++ pat) = m := by
  induction m with
  | nil =>
    rw [List.nil_append]
    have hstep : removeAll pat (pat ++ []) = removeAll pat [] :=
      removeAll_append_self pat [] hne
    rw [List.append_nil] at hstep
    rw [hstep]
    simp [removeAll]
  | cons c m' ih =>
    rw [List.cons_append, removeAll, dif_neg hne]
    have hmem : (c :: (m' ++ pat)) ∈ ((c :: m') ++ pat).tails := by
      rw [List.cons_append]
      exact (List.mem_tails _ _).mpr (List.suffix_refl _)
    have hlen : pat.length < (c :: (m' ++ pat)).length := by
      simp only [List.length_cons, List.length_append]
      omega
    have hpre : pat.isPrefixOf (c :: (m' ++ pat)) = false := h _ hmem hlen
    rw [if_neg (by simp [hpre])]
    have hrest : removeAll pat (m' ++ pat) = m' := by
      apply ih
      intro t ht hlt
      apply h t ?_ hlt
      rw [List.cons_append]
      have hsuf : t <:+ (m' ++ pat) := (List.mem_tails _ _).mp ht
      exact (List.mem_tails _ _).mpr (hsuf.trans (List.suffix_cons c (m' ++ pat)))
    rw [hrest]

/-- Store for the listing scenario: two keys under "vectors/" and one
under "other/" (bodies are irrelevant to listing). -/
def listScenarioStore : S3State :=
  { objects :=
      [ (("vectors/a.json" : String), ObjBody.malformed)
      , (("vectors/b.json" : String), ObjBody.malformed)
      , (("other/c.json" : String), ObjBody.malformed) ]
    failPut := noFail
    failGet := noFail
    listFails := false }

/-- Store with a key in which the prefix "vectors/" occurs twice. -/
def dupPrefixStore : S3State :=
  { objects := [ (("vectors/vectors/a.json" : String), ObjBody.malformed) ]
    failPut := noFail
    failGet := noFail
    listFails := false }

/-- Counterexample to C7 as stated: list_vectors derives ids with
Python replace, which deletes every occurrence of the prefix, not
only the leading one.  For the key "vectors/vectors/a.json" under
prefix "vectors/", stripping the prefix and the ".json" suffix would
give "vectors/a", but the code returns "a". -/
theorem list_vectors_dup_prefix_key :
    list_vectors dupPrefixStore vectorsPfx 1000 = ["a"] ∧
    (["a"] : List String) ≠ ["vectors/a"] := by
  constructor
  · simp [list_vectors, list_objects_v2, dupPrefixStore, strStartsWith, strEndsWith,
      vectorsPfx, jsonSuf, removeAll, List.filter, List.filterMap, List.take,
      List.isPrefixOf, List.isSuffixOf]
  · decide

/-- C7 amended: list_vectors returns, for each listed key ending in
".json", the id obtained by deleting every occurrence of the prefix
and every occurrence of ".json" from the key (Python replace), and
silently excludes keys without the ".json" suffix.  When the prefix
occurs only at the front of the key and ".json" occurs only at its
end, this deletion coincides with stripping them: the derived id for
the key prefix ++ m ++ ".json" is exactly m.  In particular, listing
the scenario store with prefix "vectors/" over keys vectors/a.json,
vectors/b.json, other/c.json returns exactly ["a", "b"]. -/
theorem list_vectors_strips_single_occurrence (pfx : String) (m : List Char) (key : String)
    (hkey : key.data = pfx.data ++ (m ++ jsonSuf.data))
    (hpne : pfx.data ≠ [])
    (h1 : occursIn pfx.data (m ++ jsonSuf.data) = false)
    (h2 : ∀ t ∈ (m ++ jsonSuf.data).tails, jsonSuf.data.length < t.length →
      jsonSuf.data.isPrefixOf t = false) :
    removeAll jsonSuf.data (removeAll pfx.data key.data) = m ∧
    list_vectors listScenarioStore vectorsPfx 1000 = ["a", "b"] := by
  constructor
  · rw [hkey, removeAll_append_self pfx.data _ hpne, removeAll_of_not_occursIn _ _ h1,
      removeAll_append_pat jsonSuf.data m (by decide) h2]
  · simp [list_vectors, list_objects_v2, listScenarioStore, strStartsWith, strEndsWith,
      vectorsPfx, jsonSuf, removeAll, List.filter, List.filterMap, List.take,
      List.isPrefixOf, List.isSuffixOf]

/-- Witness for the amended C7 at the key "vectors/b.json": the
derived id is "b". -/
theorem list_vectors_strips_single_occurrence_witness :
    (("vectors/b.json" : String).data = ("vectors/" : String).data ++ (['b'] ++ jsonSuf.data) ∧
      ("vectors/" : String).data ≠ [] ∧
      occursIn ("vectors/" : String).data (['b'] ++ jsonSuf.data) = false ∧
      (∀ t ∈ (['b'] ++ jsonSuf.data).tails, jsonSuf.data.length < t.length →
        jsonSuf.data.isPrefixOf t = false)) ∧
    (removeAll jsonSuf.data (removeAll ("vectors/" : String).data ("vectors/b.json" : String).data)
        = ['b'] ∧
      list_vectors listScenarioStore vectorsPfx 1000 = ["a", "b"]) :=
  ⟨⟨by decide, by decide, by decide, by decide⟩,
    list_vectors_strips_single_occurrence ("vectors/") ['b'] ("vectors/b.json")
      (by decide) (by decide) (by decide) (by decide)⟩

/-- Witness for C10 at the empty store: the list request of the trace
is read-only by the theorem. -/
theorem search_requests_read_only_witness :
    S3Request.listReq vectorsPfx ∈ searchRequests emptyStore vectorsPfx ∧
    isReadOnly (S3Request.listReq vectorsPfx) = true :=
  ⟨by decide, (search_requests_read_only emptyStore vectorsPfx).1
    (S3Request.listReq vectorsPfx) (by decide)⟩
